import Mathlib

/-!
Verification development for the commit-history reconstruction and
revision-management engine of `vbench` (`vbench/git.py`).

The Python source is shallowly embedded below:
  * timestamps are modelled as `Int` seconds since the Unix epoch (the code
    converts every RFC-2822 date to a UTC-naive `datetime` of second
    resolution, so chronological comparison of those datetimes coincides with
    comparison of epoch seconds);
  * Python exceptions are modelled with `Except` (`PyErr`);
  * string splitting, joining and case mapping are implemented on the
    character lists underlying `String`, with the exact semantics of the
    Python operations used by the source;
  * the four parallel lists `shas`, `timestamps`, `messages`, `authors`
    kept by `_parse_commit_log_branch` are modelled as one list of `Commit`
    records, the record fields corresponding index-wise to the four lists
    (the code only ever grows the four lists in lock step);
  * external child processes (`run_cmd` of `vbench.utils`, which is not part
    of this repository snapshot) are modelled as recorded `Invocation`s with
    an exit-status oracle, following the spec's description of the
    `run_external_command` capability.
-/

namespace Vbench

/-- Python exception kinds raised by the embedded code paths. -/
inductive PyErr where
  | valueError
  | typeError
  | indexError
  | keyError
deriving DecidableEq, Repr

/-- One row of the commit table: `sha`, UTC timestamp (epoch seconds),
first line of the message, author display name.  Corresponds index-wise to
the four parallel lists built by `GitRepo._parse_commit_log_branch`. -/
structure Commit where
  sha : String
  timestamp : Int
  message : String
  author : String
deriving DecidableEq, Repr

/-- Split a character list at every occurrence of a single separator
character, keeping empty pieces, as Python `str.split(sep)` does for a
one-character separator. -/
def splitOnChar (sep : Char) : List Char → List (List Char)
  | [] => [[]]
  | c :: rest =>
    let r := splitOnChar sep rest
    if c = sep then [] :: r
    else
      match r with
      | [] => [[c]]
      | h :: t => (c :: h) :: t

/-- Split a character list at every occurrence of the two-character
separator `::`, scanning left to right, as Python `str.split("::")` does. -/
def splitOnColons : List Char → List (List Char)
  | [] => [[]]
  | [c] => [[c]]
  | ':' :: ':' :: rest => [] :: splitOnColons rest
  | c :: rest =>
    match splitOnColons rest with
    | [] => [[c]]
    | h :: t => (c :: h) :: t

/-- Interleave a separator between character-list pieces (the core of
Python `sep.join`). -/
def intercalateChars (sep : List Char) : List (List Char) → List Char
  | [] => []
  | [x] => x
  | x :: y :: rest => x ++ sep ++ intercalateChars sep (y :: rest)

/-- Python `sep.join(xs)` for a list of strings. -/
def intercalateStrings (sep : List Char) (xs : List String) : String :=
  String.mk (intercalateChars sep (xs.map (fun s => s.data)))

/-- Python `s.split(sep)` for a one-character separator, on strings. -/
def pySplitChar (s : String) (sep : Char) : List String :=
  (splitOnChar sep s.data).map (fun l => String.mk l)

/-- Python `line.split("::", maxsplit)`: at most `maxsplit` splits are made,
the remainder is kept joined in the final field. -/
def pySplitColons (s : String) (maxsplit : Nat) : List String :=
  let parts := splitOnColons s.data
  let parts2 :=
    if parts.length ≤ maxsplit + 1 then parts
    else parts.take maxsplit ++ [intercalateChars [':', ':'] (parts.drop maxsplit)]
  parts2.map (fun l => String.mk l)

/-- Character-list core of Python `str.strip()`: drop leading and trailing
whitespace. -/
def stripChars (l : List Char) : List Char :=
  ((l.dropWhile Char.isWhitespace).reverse.dropWhile Char.isWhitespace).reverse

/-- Python `s.strip()`. -/
def pyStrip (s : String) : String :=
  String.mk (stripChars s.data)

/-- Digits of a decimal literal to a natural number; `none` unless the list
is a nonempty run of ASCII digits. -/
def digitsToNat? (ds : List Char) : Option Nat :=
  if ds.isEmpty then none
  else if ds.all Char.isDigit then
    some (ds.foldl (fun n c => n * 10 + (c.toNat - 48)) 0)
  else none

/-- Python `int(s)` on strings: surrounding whitespace is stripped, an
optional sign is allowed, then a nonempty run of decimal digits; `none`
models the `ValueError` raised otherwise. -/
def pyInt? (s : String) : Option Int :=
  match stripChars s.data with
  | [] => none
  | '+' :: ds => (digitsToNat? ds).map (fun n => (n : Int))
  | '-' :: ds => (digitsToNat? ds).map (fun n => -(n : Int))
  | ds => (digitsToNat? ds).map (fun n => (n : Int))

/-- Python `s.split()` (whitespace words, empties dropped; the dates at hand
only contain spaces). -/
def pyWords (s : String) : List String :=
  (pySplitChar s ' ').filter (fun w => ¬ w = "")

/-- ASCII lower-casing of one character (`str.lower` on the tokens at
hand). -/
def asciiLower (c : Char) : Char :=
  if 'A' ≤ c ∧ c ≤ 'Z' then Char.ofNat (c.toNat + 32) else c

/-- ASCII upper-casing of one character (`str.upper` on the tokens at
hand). -/
def asciiUpper (c : Char) : Char :=
  if 'a' ≤ c ∧ c ≤ 'z' then Char.ofNat (c.toNat - 32) else c

/-- Python `s.lower()`. -/
def pyLower (s : String) : String := String.mk (s.data.map asciiLower)

/-- Python `s.upper()`. -/
def pyUpper (s : String) : String := String.mk (s.data.map asciiUpper)

/-- Index of the first occurrence of a string in a list (`list.index`). -/
def idxOf? : List String → String → Option Nat
  | [], _ => none
  | x :: xs, k => if x = k then some 0 else (idxOf? xs k).map (fun i => i + 1)

/-- Month names recognised by `rfc822.parsedate_tz`. -/
def monthNamesShort : List String :=
  ["jan", "feb", "mar", "apr", "may", "jun",
   "jul", "aug", "sep", "oct", "nov", "dec"]

/-- Full month names recognised by `rfc822.parsedate_tz`. -/
def monthNamesFull : List String :=
  ["january", "february", "march", "april", "may", "june",
   "july", "august", "september", "october", "november", "december"]

/-- Month name to month number (1..12), as in `rfc822.parsedate_tz`. -/
def monthNum? (m : String) : Option Nat :=
  match idxOf? monthNamesShort (pyLower m) with
  | some i => some (i + 1)
  | none =>
    match idxOf? monthNamesFull (pyLower m) with
    | some i => some (i + 1)
    | none => none

/-- Named zones of `rfc822._timezones` (offsets in the `HHMM`-as-number
convention used there). -/
def tzTable : List (String × Int) :=
  [("UT", 0), ("UTC", 0), ("GMT", 0), ("Z", 0),
   ("AST", -400), ("ADT", -300), ("EST", -500), ("EDT", -400),
   ("CST", -600), ("CDT", -500), ("MST", -700), ("MDT", -600),
   ("PST", -800), ("PDT", -700)]

/-- Convert an `HHMM`-as-number offset into seconds, as `rfc822.parsedate_tz`
does (`-0500 -> -18000`). -/
def tzConvert (v : Int) : Int :=
  if v < 0 then -(((-v) / 100) * 3600 + ((-v) % 100) * 60)
  else (v / 100) * 3600 + (v % 100) * 60

/-- Zone token to an offset in seconds; `none` models an unrecognised zone
(whose local-time fallback in `rfc822.mktime_tz` is host dependent and never
exercised by the logs at hand, which carry explicit offsets). -/
def tzOffsetSeconds? (tz : String) : Option Int :=
  match (tzTable.find? (fun p => p.1 = pyUpper tz)).map (fun p => p.2) with
  | some v => some (tzConvert v)
  | none =>
    match pyInt? tz with
    | some v => some (tzConvert v)
    | none => none

/-- Days from the civil epoch 1970-01-01 (proleptic Gregorian), the counting
performed inside `calendar.timegm`. -/
def daysFromCivil (y m d : Int) : Int :=
  let y2 := y - (if m ≤ 2 then 1 else 0)
  let era := Int.fdiv y2 400
  let yoe := y2 - era * 400
  let mp := Int.emod (m + 9) 12
  let doy := Int.fdiv (153 * mp + 2) 5 + d - 1
  let doe := yoe * 365 + Int.fdiv yoe 4 - Int.fdiv yoe 100 + doy
  era * 146097 + doe - 719468

/-- Parse `HH:MM` or `HH:MM:SS`. -/
def timeOfDay? (tm : String) : Option (Nat × Nat × Nat) :=
  match pySplitChar tm ':' with
  | [hh, mm] =>
    match digitsToNat? hh.data, digitsToNat? mm.data with
    | some h, some mi => some (h, mi, 0)
    | _, _ => none
  | [hh, mm, ss] =>
    match digitsToNat? hh.data, digitsToNat? mm.data, digitsToNat? ss.data with
    | some h, some mi, some s2 => some (h, mi, s2)
    | _, _, _ => none
  | _ => none

/-- Embedding of `rfc822_to_gmdatetime`: parse an RFC-2822 date with
`rfc822.parsedate_tz` (optional weekday token ending in a comma, then day,
month name, year, time, zone; day and month may be swapped; two-digit years
are windowed), convert to UTC epoch seconds with `rfc822.mktime_tz` and
truncate to second resolution as `time.gmtime` plus the `datetime`
constructor do.  The resulting UTC-naive `datetime` is represented by its
epoch-second value.  `none` models the `TypeError` that `mktime_tz` raises
when `parsedate_tz` returns `None`. -/
def rfc822_to_gmdatetime (stamp : String) : Option Int :=
  let ws := pyWords stamp
  let ws :=
    match ws with
    | w :: rest => if w.data.getLast? = some ',' then rest else w :: rest
    | [] => []
  match ws with
  | [dd, mon, yy, tm, tz] =>
    let dayMonth : Option (Nat × Nat) :=
      match monthNum? mon, digitsToNat? dd.data with
      | some m, some d => some (d, m)
      | _, _ =>
        match monthNum? dd, digitsToNat? mon.data with
        | some m, some d => some (d, m)
        | _, _ => none
    match dayMonth, digitsToNat? yy.data with
    | some (d, m), some y0 =>
      let y : Int := if y0 < 100 then (if y0 > 68 then y0 + 1900 else y0 + 2000) else y0
      match timeOfDay? tm, tzOffsetSeconds? tz with
      | some (h, mi, s2), some off =>
        some (daysFromCivil y m d * 86400 + (h : Int) * 3600 + (mi : Int) * 60 + s2 - off)
      | _, _ => none
    | _, _ => none
  | _ => none

/-- Process one raw log line as the body of the loop in
`GitRepo._parse_commit_log_branch` does before the duplicate/boundary tests:
`line[0]` raises `IndexError` on an empty line; lines not starting with the
graph marker are decoration and skipped (`ok none`); a marker line is split
by `line.split("::", 4)` and must yield exactly the five fields
`_, sha, stamp, message, author` (a `ValueError` otherwise); the date is
then converted, a failure there being `mktime_tz`'s `TypeError`. -/
def lineFields (line : String) : Except PyErr (Option Commit) :=
  match line.data with
  | [] => Except.error PyErr.indexError
  | c :: _ =>
    if c = '*' then
      match pySplitColons line 4 with
      | [_, sha, stamp, message, author] =>
        match rfc822_to_gmdatetime stamp with
        | some t => Except.ok (some { sha := sha, timestamp := t, message := message, author := author })
        | none => Except.error PyErr.typeError
      | _ => Except.error PyErr.valueError
    else Except.ok none

/-- The loop of `GitRepo._parse_commit_log_branch`: walk the raw log lines
top-down (newest first), skipping decoration, dropping entries whose
timestamp was already collected, stopping with a boundary sha at the first
already-known sha, and otherwise accumulating the commit at the end of the
four parallel lists (here: of `acc`). -/
def parseLoop (known : List String) : List String → List Commit → Except PyErr (List Commit × Option String)
  | [], acc => Except.ok (acc, none)
  | line :: rest, acc =>
    match lineFields line with
    | Except.error e => Except.error e
    | Except.ok none => parseLoop known rest acc
    | Except.ok (some c) =>
      if c.timestamp ∈ acc.map (fun x => x.timestamp) then parseLoop known rest acc
      else if c.sha ∈ known then Except.ok (acc, some c.sha)
      else parseLoop known rest (acc ++ [c])

/-- Embedding of `GitRepo._parse_commit_log_branch`, taking the raw
`githist` lines as input (the invocation of `git log` that produces them is
outside the model).  The accumulated lists are reversed at the end
(`shas[::-1]` etc.) so the branch's commit list is oldest-first. -/
def parse_commit_log_branch (lines : List String) (known_shas : List String) :
    Except PyErr (List Commit × Option String) :=
  match parseLoop known_shas lines [] with
  | Except.error e => Except.error e
  | Except.ok (acc, base) => Except.ok (acc.reverse, base)

/-- Lookup in the `sha_branches` dict (association-list model of a Python
dict; only `get`/`set` semantics are relevant), with default `[]` as in
`sha_branches.get(sha, [])`. -/
def shaBranchesGet (m : List (String × List String)) (k : String) : List String :=
  match m.find? (fun p => p.1 = k) with
  | some p => p.2
  | none => []

/-- Store into an association-list-modelled Python dict. -/
def alistSet {β : Type} : List (String × β) → String → β → List (String × β)
  | [], k, v => [(k, v)]
  | p :: rest, k, v => if p.1 = k then (k, v) :: rest else p :: alistSet rest k v

/-- One update `sha_branches[sha] = sha_branches.get(sha, []) + [b]`. -/
def recordBranch (m : List (String × List String)) (sha b : String) :
    List (String × List String) :=
  alistSet m sha (shaBranchesGet m sha ++ [b])

/-- The branch loop of `GitRepo._parse_commit_log`: parse each branch
against the growing `known_shas` set, collect the per-branch commit lists,
and record branch membership for the boundary sha (when present) and every
commit sha of the branch. -/
def logLoop : List (String × List String) → List String → List (List Commit) →
    List (String × List String) →
    Except PyErr (List (List Commit) × List (String × List String))
  | [], _, commitsAcc, sb => Except.ok (commitsAcc, sb)
  | (b, lines) :: rest, known, commitsAcc, sb =>
    match parse_commit_log_branch lines known with
    | Except.error e => Except.error e
    | Except.ok (entry, base) =>
      let shas := entry.map (fun c => c.sha)
      let withBase := (match base with | some s => [s] | none => []) ++ shas
      logLoop rest (known ++ shas) (commitsAcc ++ [entry])
        (withBase.foldl (fun m sha => recordBranch m sha b) sb)

/-- Chronological order on commit rows, the sort key of
`commits.sort("timestamps")`. -/
def commitLE (a b : Commit) : Prop := a.timestamp ≤ b.timestamp

instance : DecidableRel commitLE := fun a b => Int.decLe a.timestamp b.timestamp

instance : IsTotal Commit commitLE := ⟨fun a b => Int.le_total a.timestamp b.timestamp⟩

instance : IsTrans Commit commitLE := ⟨fun _ _ _ hab hbc => le_trans hab hbc⟩

/-- Embedding of `GitRepo._parse_commit_log`, over the map from branch name
to that branch's raw log lines: run the branch loop from an empty known set,
concatenate the per-branch commit lists (`sum(v, [])` columnwise), index by
sha and sort ascending by timestamp. -/
def parse_commit_log (branchLogs : List (String × List String)) :
    Except PyErr (List Commit × List (String × List String)) :=
  match logLoop branchLogs [] [] [] with
  | Except.error e => Except.error e
  | Except.ok (commitsAcc, sb) =>
    Except.ok (List.insertionSort commitLE commitsAcc.flatten, sb)

/-- Column labels of the `commits` DataFrame after `set_index("shas")`. -/
def commitsColumns : List String := ["messages", "timestamps", "authors"]

/-- Embedding of `GitRepo.get_commit_info`.  In pandas, `sha in self.commits`
on a DataFrame tests membership among the column labels, not the index, so
the guard compares `sha` against `commitsColumns`; `self.commits.ix[sha]` is
a row lookup by index label, raising `KeyError` when absent. -/
def get_commit_info (commits : List Commit) (sha : String) :
    Except PyErr (Option Commit) :=
  if sha ∈ commitsColumns then
    match commits.find? (fun c => c.sha = sha) with
    | some c => Except.ok (some c)
    | none => Except.error PyErr.keyError
  else Except.ok none

/-- One line of the `--numstat` parse loop in `GitRepo.diff`: the line must
split into exactly the three tab-separated fields `i, d, path`; then
`insertions[path] = int(i)` runs before `deletions[path] = int(d)`, and the
`except` clause swallows any failure, keeping whatever assignments already
happened. -/
def diffLine (ins del : List (String × Int)) (line : String) :
    List (String × Int) × List (String × Int) :=
  match pySplitChar line '\t' with
  | [i, d, p] =>
    match pyInt? i with
    | none => (ins, del)
    | some iv =>
      let ins2 := alistSet ins p iv
      match pyInt? d with
      | none => (ins2, del)
      | some dv => (ins2, alistSet del p dv)
  | _ => (ins, del)

/-- Embedding of the stdout-parsing part of `GitRepo.diff`: split the
captured output on newlines and fold the per-line parser over the result. -/
def diff_numstat (stdout : String) : List (String × Int) × List (String × Int) :=
  (pySplitChar stdout '\n').foldl (fun st line => diffLine st.1 st.2 line) ([], [])

/-- Well-formed commit entries of a raw log in top-down order: the lines the
branch-parse loop neither skips as decoration nor fails on. -/
def realCommits (lines : List String) : List Commit :=
  lines.filterMap (fun l =>
    match lineFields l with
    | Except.ok (some c) => some c
    | _ => none)

/-- Shas of the well-formed commit entries of a raw log, top-down. -/
def realShas (lines : List String) : List String :=
  (realCommits lines).map (fun c => c.sha)

/-- Reference fold for the branch-parse loop with an empty known set: keep a
commit entry exactly when its timestamp was not collected before. -/
def dedupAccum : List Commit → List Commit → List Commit
  | acc, [] => acc
  | acc, c :: cs =>
    if c.timestamp ∈ acc.map (fun x => x.timestamp) then dedupAccum acc cs
    else dedupAccum (acc ++ [c]) cs

/-- Does `pat` occur as a leading block of `l`? -/
def startsWithChars : List Char → List Char → Bool
  | [], _ => true
  | _ :: _, [] => false
  | p :: ps, c :: cs => p = c && startsWithChars ps cs

/-- Does `pat` occur as a contiguous block anywhere in `l`? -/
def containsChars (pat : List Char) : List Char → Bool
  | [] => pat.isEmpty
  | c :: cs => startsWithChars pat (c :: cs) || containsChars pat cs

/-- Errors raised by the workspace component. -/
inductive VbError where
  | failedToBuild (msg : String)
  | runtimeError (msg : String)
deriving DecidableEq, Repr

/-- One child-process invocation handed to `run_cmd`: argv (a single shell
string when `shell` is set), the `shell` flag, and the working directory. -/
structure Invocation where
  args : List String
  shell : Bool
  cwd : Option String
deriving DecidableEq, Repr

/-- Observable workspace effects, in program order. -/
inductive Action where
  | run (inv : Invocation)
  | rmtree (path : String)
  | cleanPyc (dir : String)
deriving DecidableEq, Repr

/-- Configuration of `BenchRepo` (the temporary staging directory is the
derived `target_dir + "_tmp"`). -/
structure BenchRepo where
  source_url : String
  target_dir : String
  build_cmds : String
  prep_cmd : String
  clean_cmd : Option String
  dependencies : List String
  always_clean : Bool
deriving DecidableEq, Repr

/-- The staging directory `self.target_dir_tmp = target_dir + "_tmp"`. -/
def BenchRepo.targetDirTmp (r : BenchRepo) : String := r.target_dir ++ "_tmp"

/-- Join a multi-line command block as `_build`, `_prep` and `_clean` all do:
`";".join([x for x in cmds.split("\n") if len(x.strip()) > 0])`. -/
def joinCmds (block : String) : String :=
  intercalateStrings [';']
    ((pySplitChar block '\n').filter (fun x => decide (0 < (pyStrip x).length)))

/-- Spec-side formulation of the same join, written from the words of the
spec: split the block on newlines, drop lines that are empty or
whitespace-only, join the remaining lines with a single command separator. -/
def specJoinCmds (block : String) : String :=
  intercalateStrings [';']
    ((pySplitChar block '\n').filter (fun l => ! l.data.all Char.isWhitespace))

/-- Message of the `RuntimeError` raised by `BenchRepo._clone`. -/
def cloneMsg (target : String) : String :=
  "Target directory " ++ target ++ " already exists. Can\x27t clone into it"

/-- The `git clone source target` invocation of `BenchRepo._clone`. -/
def cloneInv (source target : String) : Invocation :=
  { args := ["git", "clone", source, target], shell := false, cwd := none }

/-- Embedding of `BenchRepo._clone` over an abstract filesystem (the list of
existing directories): an existing target is removed first when `rm` is set
and is a fatal `RuntimeError` otherwise, raised before any clone; the clone
itself is a recorded invocation of `run_cmd`.  Returns (outcome, effect
trace, filesystem after). -/
def cloneOp (fs : List String) (source target : String) (rm : Bool) :
    Except VbError Unit × List Action × List String :=
  if target ∈ fs then
    if rm then
      (Except.ok (), [Action.rmtree target, Action.run (cloneInv source target)],
        target :: fs.filter (fun d => ¬ d = target))
    else (Except.error (VbError.runtimeError (cloneMsg target)), [], fs)
  else (Except.ok (), [Action.run (cloneInv source target)], target :: fs)

/-- The single shell invocation of `BenchRepo._build`. -/
def buildInv (r : BenchRepo) : Invocation :=
  { args := [joinCmds r.build_cmds], shell := true, cwd := some r.target_dir }

/-- The fixed message of `FailedToBuildError`. -/
def buildFailMsg : String := "Failed to build. See stderr in the log for details"

/-- Embedding of `BenchRepo._build`: run the joined build command in the
permanent directory; a nonzero exit status raises `FailedToBuildError` with
the fixed message.  `w` is the exit-status oracle of the external world
(modelled from the spec: `run_cmd` of `vbench.utils` is not under this
snapshot; per the spec it is a blocking invocation returning the exit
status, not raising here). -/
def buildOp (r : BenchRepo) (w : Invocation → Int) : Except VbError Unit × List Action :=
  (if ¬ w (buildInv r) = 0 then Except.error (VbError.failedToBuild buildFailMsg)
   else Except.ok (), [Action.run (buildInv r)])

/-- Embedding of `BenchRepo._prep`: one shell invocation of the joined prep
command in the permanent directory, exit status ignored. -/
def prepOp (r : BenchRepo) : List Action :=
  [Action.run { args := [joinCmds r.prep_cmd], shell := true, cwd := some r.target_dir }]

/-- Embedding of `BenchRepo._clean`: nothing when `clean_cmd` is falsy,
otherwise one shell invocation of the joined clean command in the permanent
directory, exit status ignored. -/
def cleanOp (r : BenchRepo) : List Action :=
  match r.clean_cmd with
  | none => []
  | some c =>
    if c = "" then []
    else [Action.run { args := [joinCmds c], shell := true, cwd := some r.target_dir }]

/-- The command string built by `_git_command(repo_path)` (note the trailing
space). -/
def gitCommandStr (repo_path : String) : String :=
  "git --git-dir=" ++ repo_path ++ "/.git --work-tree=" ++ repo_path ++ " "

/-- Python `s.split()` restricted to spaces, as used on the git command
string and the checkout argument string. -/
def pySplitWS (s : String) : List String :=
  (pySplitChar s ' ').filter (fun w => ¬ w = "")

/-- Embedding of `BenchRepo._checkout`: one argv invocation of
`git ... checkout -f rev` (detached-head stderr is tolerated; the exit
status is not inspected). -/
def checkoutOp (r : BenchRepo) (rev : String) : List Action :=
  [Action.run { args := pySplitWS (gitCommandStr r.target_dir) ++ pySplitWS ("checkout -f " ++ rev),
                shell := false, cwd := none }]

/-- Path of the benchmark runner script copied by
`_copy_benchmark_scripts_and_deps` (stands for
`os.path.join(dirname(__file__), "scripts/vb_run_benchmarks.py")`). -/
def vbScriptPath : String := "scripts/vb_run_benchmarks.py"

/-- Embedding of `BenchRepo._copy_benchmark_scripts_and_deps`: one `cp` shell
invocation per dependency, the runner script first. -/
def copyDepsOp (r : BenchRepo) : List Action :=
  (vbScriptPath :: r.dependencies).map (fun dep =>
    Action.run { args := ["cp " ++ dep ++ " " ++ r.target_dir], shell := true, cwd := none })

/-- Embedding of `BenchRepo._copy_repo` (also `hard_clean`): clone staging
into the permanent directory with removal allowed, then run the prep
command. -/
def copyRepoOp (r : BenchRepo) (fs : List String) :
    Except VbError Unit × List Action × List String :=
  match cloneOp fs r.targetDirTmp r.target_dir true with
  | (Except.ok _, tr, fs2) => (Except.ok (), tr ++ prepOp r, fs2)
  | (Except.error e, tr, fs2) => (Except.error e, tr, fs2)

/-- Embedding of `BenchRepo.switch_to_revision`: hard clean (when
`always_clean`) or tolerant clean, force checkout, re-copy scripts and
dependencies, best-effort stale-artifact removal (`_clean_pyc_files`, an
effect that never raises), then build. -/
def switch_to_revision (r : BenchRepo) (fs : List String) (w : Invocation → Int)
    (rev : String) : Except VbError Unit × List Action × List String :=
  match (if r.always_clean then copyRepoOp r fs else (Except.ok (), cleanOp r, fs)) with
  | (Except.error e, tr1, fs1) => (Except.error e, tr1, fs1)
  | (Except.ok _, tr1, fs1) =>
    match buildOp r w with
    | (res, tr5) =>
      (res, tr1 ++ checkoutOp r rev ++ copyDepsOp r ++ [Action.cleanPyc r.target_dir] ++ tr5, fs1)

/-- Concrete workspace configuration used in counterexamples and witnesses. -/
def bench0 : BenchRepo :=
  { source_url := "srcrepo", target_dir := "bench", build_cmds := "make",
    prep_cmd := "true", clean_cmd := none, dependencies := [], always_clean := false }

/-- An exit-status oracle under which every command fails. -/
def worldFail : Invocation → Int := fun _ => 1

/-- An exit-status oracle under which every command succeeds. -/
def worldOK : Invocation → Int := fun _ => 0

theorem realShas_cons_skip {l : String} (h : lineFields l = Except.ok none)
    (rest : List String) : realShas (l :: rest) = realShas rest := by
  simp [realShas, realCommits, List.filterMap_cons, h]

theorem realShas_cons_some {l : String} {c : Commit}
    (h : lineFields l = Except.ok (some c)) (rest : List String) :
    realShas (l :: rest) = c.sha :: realShas rest := by
  simp [realShas, realCommits, List.filterMap_cons, h]

theorem realCommits_cons_skip {l : String} (h : lineFields l = Except.ok none)
    (rest : List String) : realCommits (l :: rest) = realCommits rest := by
  simp [realCommits, List.filterMap_cons, h]

theorem realCommits_cons_some {l : String} {c : Commit}
    (h : lineFields l = Except.ok (some c)) (rest : List String) :
    realCommits (l :: rest) = c :: realCommits rest := by
  simp [realCommits, List.filterMap_cons, h]

/-- The branch-parse loop only appends: a successful run extends the
accumulator with fresh commits whose shas form a subsequence of the raw
log's commit shas and avoid the known set. -/
theorem parseLoop_append (known : List String) :
    ∀ (lines : List String) (acc acc2 : List Commit) (base : Option String),
      parseLoop known lines acc = Except.ok (acc2, base) →
      ∃ nw, acc2 = acc ++ nw ∧ (nw.map (fun c => c.sha)).Sublist (realShas lines) ∧
        ∀ c ∈ nw, ¬ c.sha ∈ known := by
  intro lines
  induction lines with
  | nil =>
    intro acc acc2 base h
    simp only [parseLoop, Except.ok.injEq, Prod.mk.injEq] at h
    exact ⟨[], by simp [h.1], by simp, by simp⟩
  | cons line rest ih =>
    intro acc acc2 base h
    simp only [parseLoop] at h
    split at h
    next e hl => exact Except.noConfusion h
    next hl =>
      obtain ⟨nw, h1, h2, h3⟩ := ih acc acc2 base h
      exact ⟨nw, h1, (realShas_cons_skip hl rest) ▸ h2, h3⟩
    next c hl =>
      by_cases hts : c.timestamp ∈ acc.map (fun x => x.timestamp)
      · rw [if_pos hts] at h
        obtain ⟨nw, h1, h2, h3⟩ := ih acc acc2 base h
        exact ⟨nw, h1, (realShas_cons_some hl rest) ▸ h2.cons c.sha, h3⟩
      · rw [if_neg hts] at h
        by_cases hk : c.sha ∈ known
        · rw [if_pos hk] at h
          simp only [Except.ok.injEq, Prod.mk.injEq] at h
          exact ⟨[], by simp [h.1], by simp, by simp⟩
        · rw [if_neg hk] at h
          obtain ⟨nw, h1, h2, h3⟩ := ih (acc ++ [c]) acc2 base h
          refine ⟨c :: nw, by rw [h1]; simp, ?_, ?_⟩
          · rw [realShas_cons_some hl rest]
            simpa using h2.cons₂ c.sha
          · intro x hx
            rcases List.mem_cons.mp hx with hx1 | hx2
            · exact hx1 ▸ hk
            · exact h3 x hx2

/-- A boundary sha reported by the branch-parse loop is a known sha whose
triggering log entry carries a timestamp not present among the collected
commits (duplicate-timestamp suppression fires first and records no
boundary). -/
theorem parseLoop_base_spec (known : List String) :
    ∀ (lines : List String) (acc acc2 : List Commit) (s : String),
      parseLoop known lines acc = Except.ok (acc2, some s) →
      s ∈ known ∧ ∃ l ∈ lines, ∃ c, lineFields l = Except.ok (some c) ∧ c.sha = s ∧
        ¬ c.timestamp ∈ acc2.map (fun x => x.timestamp) := by
  intro lines
  induction lines with
  | nil =>
    intro acc acc2 s h
    simp only [parseLoop, Except.ok.injEq, Prod.mk.injEq] at h
    exact absurd h.2 (by simp)
  | cons line rest ih =>
    intro acc acc2 s h
    simp only [parseLoop] at h
    split at h
    next e hl => exact Except.noConfusion h
    next hl =>
      obtain ⟨hs, l, hml, hrest⟩ := ih acc acc2 s h
      exact ⟨hs, l, List.mem_cons_of_mem line hml, hrest⟩
    next c hl =>
      by_cases hts : c.timestamp ∈ acc.map (fun x => x.timestamp)
      · rw [if_pos hts] at h
        obtain ⟨hs, l, hml, hrest⟩ := ih acc acc2 s h
        exact ⟨hs, l, List.mem_cons_of_mem line hml, hrest⟩
      · rw [if_neg hts] at h
        by_cases hk : c.sha ∈ known
        · rw [if_pos hk] at h
          simp only [Except.ok.injEq, Prod.mk.injEq, Option.some.injEq] at h
          refine ⟨h.2 ▸ hk, line, List.mem_cons_self line rest, c, hl, h.2, ?_⟩
          rw [← h.1]
          exact hts
        · rw [if_neg hk] at h
          obtain ⟨hs, l, hml, hrest⟩ := ih (acc ++ [c]) acc2 s h
          exact ⟨hs, l, List.mem_cons_of_mem line hml, hrest⟩

/-- The boundary sha returned by `_parse_commit_log_branch` belongs to the
known-sha set it was called with. -/
theorem branch_base_mem (lines known : List String) (e : List Commit) (s : String)
    (h : parse_commit_log_branch lines known = Except.ok (e, some s)) : s ∈ known := by
  unfold parse_commit_log_branch at h
  cases hp : parseLoop known lines [] with
  | error e2 => rw [hp] at h; exact Except.noConfusion h
  | ok q =>
    rw [hp] at h
    obtain ⟨acc, b⟩ := q
    simp only [Except.ok.injEq, Prod.mk.injEq] at h
    exact (parseLoop_base_spec known lines [] acc s (h.2 ▸ hp)).1

/-- Commit list returned by `_parse_commit_log_branch`: its shas are nodup
whenever the raw log's commit shas are, and none of them is already known. -/
theorem branch_entry_spec (lines known : List String) (e : List Commit)
    (base : Option String)
    (h : parse_commit_log_branch lines known = Except.ok (e, base)) :
    ((realShas lines).Nodup → (e.map (fun c => c.sha)).Nodup) ∧
      ∀ c ∈ e, ¬ c.sha ∈ known := by
  unfold parse_commit_log_branch at h
  cases hp : parseLoop known lines [] with
  | error e2 => rw [hp] at h; exact Except.noConfusion h
  | ok q =>
    rw [hp] at h
    obtain ⟨acc, b⟩ := q
    simp only [Except.ok.injEq, Prod.mk.injEq] at h
    obtain ⟨he, _⟩ := h
    obtain ⟨nw, h1, h2, h3⟩ := parseLoop_append known lines [] acc b hp
    simp only [List.nil_append] at h1
    subst he
    subst h1
    constructor
    · intro hnd
      rw [List.map_reverse, List.nodup_reverse]
      exact List.Nodup.sublist h2 hnd
    · intro c hc
      exact h3 c (List.mem_reverse.mp hc)

/-- With an empty known set the branch-parse loop never stops early and
computes exactly the duplicate-timestamp-suppressing fold over the raw
log's well-formed commit entries. -/
theorem parseLoop_empty_known :
    ∀ (lines : List String) (acc acc2 : List Commit) (base : Option String),
      parseLoop [] lines acc = Except.ok (acc2, base) →
      base = none ∧ acc2 = dedupAccum acc (realCommits lines) := by
  intro lines
  induction lines with
  | nil =>
    intro acc acc2 base h
    simp only [parseLoop, Except.ok.injEq, Prod.mk.injEq] at h
    exact ⟨h.2.symm, by simp [dedupAccum, realCommits, h.1]⟩
  | cons line rest ih =>
    intro acc acc2 base h
    simp only [parseLoop] at h
    split at h
    next e hl => exact Except.noConfusion h
    next hl =>
      rw [realCommits_cons_skip hl rest]
      exact ih acc acc2 base h
    next c hl =>
      rw [realCommits_cons_some hl rest]
      by_cases hts : c.timestamp ∈ acc.map (fun x => x.timestamp)
      · rw [if_pos hts] at h
        obtain ⟨hb, ha⟩ := ih acc acc2 base h
        exact ⟨hb, by rw [dedupAccum, if_pos hts]; exact ha⟩
      · rw [if_neg hts, if_neg (by simp : ¬ c.sha ∈ ([] : List String))] at h
        obtain ⟨hb, ha⟩ := ih (acc ++ [c]) acc2 base h
        exact ⟨hb, by rw [dedupAccum, if_neg hts]; exact ha⟩

/-- Once a timestamp is collected, the dedup fold adds no further entry
with that timestamp. -/
theorem dedup_filter_stable (t : Int) :
    ∀ (cs acc : List Commit), t ∈ acc.map (fun x => x.timestamp) →
      (dedupAccum acc cs).filter (fun c => decide (c.timestamp = t)) =
        acc.filter (fun c => decide (c.timestamp = t)) := by
  intro cs
  induction cs with
  | nil => intro acc _; rfl
  | cons c cs ih =>
    intro acc ht
    rw [dedupAccum]
    by_cases hm : c.timestamp ∈ acc.map (fun x => x.timestamp)
    · rw [if_pos hm]
      exact ih acc ht
    · rw [if_neg hm]
      have hct : ¬ c.timestamp = t := fun he => hm (he ▸ ht)
      have ht2 : t ∈ (acc ++ [c]).map (fun x => x.timestamp) := by
        rw [List.map_append]
        exact List.mem_append.mpr (Or.inl ht)
      rw [ih (acc ++ [c]) ht2, List.filter_append]
      simp [hct]

/-- The dedup fold keeps exactly the first entry bearing a given timestamp:
if the raw entries restricted to timestamp `t` start with `c1`, the fold's
output restricted to `t` is `[c1]` (provided `t` is not yet collected). -/
theorem dedup_filter_first (t : Int) :
    ∀ (cs acc : List Commit) (c1 : Commit) (l : List Commit),
      ¬ t ∈ acc.map (fun x => x.timestamp) →
      cs.filter (fun c => decide (c.timestamp = t)) = c1 :: l →
      (dedupAccum acc cs).filter (fun c => decide (c.timestamp = t)) = [c1] := by
  intro cs
  induction cs with
  | nil => intro acc c1 l _ hfil; simp at hfil
  | cons c cs ih =>
    intro acc c1 l hnt hfil
    rw [dedupAccum]
    by_cases hct : c.timestamp = t
    · rw [List.filter_cons_of_pos (by simp [hct])] at hfil
      have hc1 : c = c1 := (List.cons.injEq .. ▸ hfil).1
      have hm : ¬ c.timestamp ∈ acc.map (fun x => x.timestamp) := by
        rw [hct]; exact hnt
      rw [if_neg hm]
      have ht2 : t ∈ (acc ++ [c]).map (fun x => x.timestamp) := by
        simp [hct]
      rw [dedup_filter_stable t cs (acc ++ [c]) ht2, List.filter_append]
      have hniltl : acc.filter (fun cc => decide (cc.timestamp = t)) = [] := by
        apply List.filter_eq_nil_iff.mpr
        intro a ha hpa
        exact hnt (by
          simp only [decide_eq_true_eq] at hpa
          exact hpa ▸ List.mem_map_of_mem (fun x => x.timestamp) ha)
      rw [hniltl, hc1]
      simp only [List.nil_append]
      have : c1.timestamp = t := hc1 ▸ hct
      simp [this]
    · rw [List.filter_cons_of_neg (by simp [hct])] at hfil
      by_cases hm : c.timestamp ∈ acc.map (fun x => x.timestamp)
      · rw [if_pos hm]
        exact ih acc c1 l hnt hfil
      · rw [if_neg hm]
        have hnt2 : ¬ t ∈ (acc ++ [c]).map (fun x => x.timestamp) := by
          rw [List.map_append]
          intro hmem
          rcases List.mem_append.mp hmem with h1 | h1
          · exact hnt h1
          · simp only [List.map_cons, List.map_nil, List.mem_singleton] at h1
            exact hct h1.symm
        exact ih (acc ++ [c]) c1 l hnt2 hfil

/-- Reading back a cons cell of the association list. -/
theorem shaBranchesGet_cons (p : String × List String) (rest : List (String × List String))
    (k : String) :
    shaBranchesGet (p :: rest) k = if p.1 = k then p.2 else shaBranchesGet rest k := by
  by_cases h : p.1 = k
  · simp [shaBranchesGet, List.find?, h]
  · simp [shaBranchesGet, List.find?, h]

/-- Reading back an association-list store. -/
theorem shaBranchesGet_alistSet (m : List (String × List String)) (k : String)
    (v : List String) (k2 : String) :
    shaBranchesGet (alistSet m k v) k2 = if k2 = k then v else shaBranchesGet m k2 := by
  induction m with
  | nil =>
    rw [alistSet, shaBranchesGet_cons]
    by_cases h : k2 = k
    · subst h
      simp
    · have h2 : ¬ k = k2 := fun he => h he.symm
      simp [h, h2]
  | cons p rest ih =>
    rw [alistSet]
    by_cases hp : p.1 = k
    · rw [if_pos hp, shaBranchesGet_cons, shaBranchesGet_cons]
      by_cases h : k2 = k
      · subst h
        simp
      · have h2 : ¬ k = k2 := fun he => h he.symm
        have h3 : ¬ p.1 = k2 := fun he => h2 (hp.symm.trans he)
        simp [h, h2, h3]
    · rw [if_neg hp, shaBranchesGet_cons, shaBranchesGet_cons, ih]
      by_cases hpk2 : p.1 = k2
      · have h4 : ¬ k2 = k := fun he => hp (hpk2.trans he)
        simp [hpk2, h4]
      · simp [hpk2]

/-- Reading back one `sha_branches` update. -/
theorem recordBranch_get (m : List (String × List String)) (sha b k : String) :
    shaBranchesGet (recordBranch m sha b) k =
      if k = sha then shaBranchesGet m sha ++ [b] else shaBranchesGet m k := by
  unfold recordBranch
  rw [shaBranchesGet_alistSet]

/-- Folding the membership updates of one branch appends one tag per
occurrence of the key among the recorded shas. -/
theorem foldl_record_get (b : String) (ks : List String) :
    ∀ (m : List (String × List String)) (k : String),
      shaBranchesGet (ks.foldl (fun m2 sha => recordBranch m2 sha b) m) k =
        shaBranchesGet m k ++ List.replicate (ks.count k) b := by
  induction ks with
  | nil => intro m k; simp
  | cons khd ktl ih =>
    intro m k
    rw [List.foldl_cons, ih (recordBranch m khd b) k, recordBranch_get]
    by_cases h : k = khd
    · subst h
      rw [if_pos rfl]
      have hc : (k :: ktl).count k = ktl.count k + 1 := by
        rw [List.count_cons]
        simp
      rw [hc, List.append_assoc]
      congr 1
    · rw [if_neg h]
      have hb2 : (khd == k) = false := beq_eq_false_iff_ne.mpr (fun he => h he.symm)
      have hc : (khd :: ktl).count k = ktl.count k := by
        rw [List.count_cons, hb2]
        simp
      rw [hc]

/-- Across the whole branch loop, the concatenated commit lists keep
pairwise-distinct shas, provided every branch's raw log has distinct commit
shas. -/
theorem logLoop_nodup (bls : List (String × List String)) :
    ∀ (known : List String) (cAcc : List (List Commit)) (sb : List (String × List String))
      (out : List (List Commit)) (sb2 : List (String × List String)),
      logLoop bls known cAcc sb = Except.ok (out, sb2) →
      (∀ p ∈ bls, (realShas p.2).Nodup) →
      (cAcc.flatten.map (fun c => c.sha)).Nodup →
      (∀ s ∈ cAcc.flatten.map (fun c => c.sha), s ∈ known) →
      (out.flatten.map (fun c => c.sha)).Nodup := by
  induction bls with
  | nil =>
    intro known cAcc sb out sb2 h _ hnd _
    simp only [logLoop, Except.ok.injEq, Prod.mk.injEq] at h
    rw [← h.1]
    exact hnd
  | cons p rest ih =>
    obtain ⟨b, lines⟩ := p
    intro known cAcc sb out sb2 h hn hnd hkn
    simp only [logLoop] at h
    split at h
    next e hb => exact Except.noConfusion h
    next entry base hb =>
      have hspec := branch_entry_spec lines known entry base hb
      have hent : (entry.map (fun c => c.sha)).Nodup :=
        hspec.1 (hn (b, lines) (List.mem_cons_self _ _))
      have hfl : (cAcc ++ [entry]).flatten = cAcc.flatten ++ entry := by simp
      apply ih (known ++ entry.map (fun c => c.sha)) (cAcc ++ [entry]) _ out sb2 h
      · intro q hq
        exact hn q (List.mem_cons_of_mem _ hq)
      · rw [hfl, List.map_append]
        refine List.Nodup.append hnd hent ?_
        rw [List.disjoint_left]
        intro a ha hb2
        obtain ⟨c, hc, hcs⟩ := List.mem_map.mp hb2
        exact (hspec.2 c hc) (hcs ▸ hkn a ha)
      · intro s hs
        rw [hfl, List.map_append] at hs
        rcases List.mem_append.mp hs with h1 | h1
        · exact List.mem_append.mpr (Or.inl (hkn s h1))
        · exact List.mem_append.mpr (Or.inr h1)

/-- A stripped character list is empty exactly when everything was
whitespace. -/
theorem stripChars_eq_nil (l : List Char) :
    stripChars l = [] ↔ ∀ c ∈ l, Char.isWhitespace c = true := by
  unfold stripChars
  rw [List.reverse_eq_nil_iff, List.dropWhile_eq_nil_iff]
  constructor
  · intro h c hc
    rcases List.mem_append.mp
        ((List.takeWhile_append_dropWhile Char.isWhitespace l) ▸ hc) with h1 | h1
    · exact List.mem_takeWhile_imp h1
    · exact h c (List.mem_reverse.mpr h1)
  · intro h c hc
    exact h c (List.Sublist.mem (List.mem_reverse.mp hc)
      (List.dropWhile_sublist Char.isWhitespace))

/-- Boolean form: the source's kept-line test `len(x.strip()) > 0` agrees
with the spec's "not empty or whitespace-only" test. -/
theorem stripLen_bool (x : String) :
    decide (0 < (pyStrip x).length) = ! x.data.all Char.isWhitespace := by
  by_cases h : x.data.all Char.isWhitespace = true
  · have hnil : stripChars x.data = [] :=
      (stripChars_eq_nil x.data).mpr (fun c hc => List.all_eq_true.mp h c hc)
    simp [pyStrip, hnil, h, String.length]
  · have hne : ¬ stripChars x.data = [] := fun he =>
      h (List.all_eq_true.mpr (fun c hc => (stripChars_eq_nil x.data).mp he c hc))
    have hpos : 0 < (stripChars x.data).length := List.length_pos.mpr hne
    have hb : x.data.all Char.isWhitespace = false := Bool.eq_false_iff.mpr h
    simp [pyStrip, hb, String.length, hpos]

/-- The outcome of `switch_to_revision` is exactly the outcome of its final
build step: the cleanup path never raises (clone inside `hard_clean` runs
with removal allowed, and the tolerant clean ignores exit status). -/
theorem switch_fst (r : BenchRepo) (fs : List String) (w : Invocation → Int)
    (rev : String) : (switch_to_revision r fs w rev).1 = (buildOp r w).1 := by
  unfold switch_to_revision copyRepoOp cloneOp buildOp
  by_cases hac : r.always_clean <;> by_cases hm : r.target_dir ∈ fs <;>
    simp [hac, hm]

/-- C1 counterexample: on exactly the two raw lines of the spec's scenario
(which contain only three `::` separators each), the five-way unpacking
`_, sha, stamp, message, author = line.split("::", 4)` fails, so
`_parse_commit_log_branch` raises a `ValueError` instead of returning the
claimed commit list. -/
theorem c1_counterexample :
    parse_commit_log_branch
      ["* abc::Mon, 01 Jan 2020 00:00:00 +0000::fix bug::alice",
       "* def::Tue, 02 Jan 2020 00:00:00 +0000::add feature::bob"] [] =
      Except.error PyErr.valueError := rfl

/-- C1 amended: raw lines in the format the configured pretty format
actually produces carry a graph-decoration field before the short hash, so
each real line splits into exactly five `::`-delimited fields; for the
newest-first raw log `def`-line then `abc`-line with an empty known set,
the parse returns the oldest-first list `[abc(alice, fix bug),
def(bob, add feature)]` and no boundary sha. -/
theorem c1_amended_scenario :
    parse_commit_log_branch
      ["* ::def::Tue, 02 Jan 2020 00:00:00 +0000::add feature::bob",
       "* ::abc::Mon, 01 Jan 2020 00:00:00 +0000::fix bug::alice"] [] =
      Except.ok
        ([{ sha := "abc", timestamp := 1577836800, message := "fix bug", author := "alice" },
          { sha := "def", timestamp := 1577923200, message := "add feature", author := "bob" }],
         none) ∧
    (pySplitColons "* ::abc::Mon, 01 Jan 2020 00:00:00 +0000::fix bug::alice" 4).length = 5 :=
  ⟨rfl, rfl⟩

/-- C2: the code is wrong here.  For a commit table containing the sha
`abc`, `get_commit_info` returns `none` because `sha in self.commits` on a
pandas DataFrame tests the column labels (`messages`, `timestamps`,
`authors`), never the sha index; the absent-sha case does return `none`
without raising, as the claim says. -/
theorem c2_lookup_bug :
    ("abc" ∈ ([{ sha := "abc", timestamp := 1577836800, message := "fix bug", author := "alice" },
        { sha := "def", timestamp := 1577923200, message := "add feature", author := "bob" }] :
          List Commit).map (fun c => c.sha)) ∧
    get_commit_info
      [{ sha := "abc", timestamp := 1577836800, message := "fix bug", author := "alice" },
       { sha := "def", timestamp := 1577923200, message := "add feature", author := "bob" }]
      "abc" = Except.ok none ∧
    get_commit_info
      [{ sha := "abc", timestamp := 1577836800, message := "fix bug", author := "alice" },
       { sha := "def", timestamp := 1577923200, message := "add feature", author := "bob" }]
      "zzz" = Except.ok none :=
  ⟨by decide, rfl, rfl⟩

/-- C3: for every branch list whose raw logs carry pairwise-distinct commit
shas, a successful `_parse_commit_log` yields a table sorted ascending by
timestamp in which every sha occurs exactly once. -/
theorem c3_sorted_unique (branchLogs : List (String × List String)) (table : List Commit)
    (sb : List (String × List String))
    (hn : ∀ p ∈ branchLogs, (realShas p.2).Nodup)
    (h : parse_commit_log branchLogs = Except.ok (table, sb)) :
    List.Sorted commitLE table ∧ (table.map (fun c => c.sha)).Nodup := by
  unfold parse_commit_log at h
  split at h
  next e hl => exact Except.noConfusion h
  next cAcc sb0 hl =>
    simp only [Except.ok.injEq, Prod.mk.injEq] at h
    obtain ⟨ht, _⟩ := h
    subst ht
    constructor
    · exact List.sorted_insertionSort commitLE cAcc.flatten
    · rw [((List.perm_insertionSort commitLE cAcc.flatten).map (fun c => c.sha)).nodup_iff]
      exact logLoop_nodup branchLogs [] [] [] cAcc sb0 hl hn (by simp) (by simp)

/-- C3 witness: the single-branch two-commit log satisfies the hypotheses
and its table is sorted with unique shas. -/
theorem c3_witness :
    List.Sorted commitLE
      [{ sha := "abc", timestamp := 1577836800, message := "fix bug", author := "alice" },
       { sha := "def", timestamp := 1577923200, message := "add feature", author := "bob" }] ∧
    (([{ sha := "abc", timestamp := 1577836800, message := "fix bug", author := "alice" },
        { sha := "def", timestamp := 1577923200, message := "add feature", author := "bob" }] :
          List Commit).map (fun c => c.sha)).Nodup :=
  c3_sorted_unique
    [("main", ["* ::def::Tue, 02 Jan 2020 00:00:00 +0000::add feature::bob",
               "* ::abc::Mon, 01 Jan 2020 00:00:00 +0000::fix bug::alice"])]
    [{ sha := "abc", timestamp := 1577836800, message := "fix bug", author := "alice" },
     { sha := "def", timestamp := 1577923200, message := "add feature", author := "bob" }]
    [("abc", ["main"]), ("def", ["main"])]
    (by decide) rfl

/-- C4: in a single branch parse with an empty known set, of any two log
entries bearing the same timestamp `t` exactly the first encountered in
top-down (newest-first) processing order survives: the entries of the
parsed commit list with timestamp `t` are exactly `[c1]`, the later
duplicate `c2` being silently dropped. -/
theorem c4_dup_timestamp (L : List String) (e : List Commit) (base : Option String)
    (t : Int) (c1 c2 : Commit)
    (h : parse_commit_log_branch L [] = Except.ok (e, base))
    (hdup : (realCommits L).filter (fun c => decide (c.timestamp = t)) = [c1, c2]) :
    e.filter (fun c => decide (c.timestamp = t)) = [c1] := by
  unfold parse_commit_log_branch at h
  split at h
  next e2 hp => exact Except.noConfusion h
  next acc b hp =>
    simp only [Except.ok.injEq, Prod.mk.injEq] at h
    obtain ⟨he, _⟩ := h
    obtain ⟨_, hacc⟩ := parseLoop_empty_known L [] acc b hp
    subst he
    rw [List.filter_reverse, hacc,
      dedup_filter_first t (realCommits L) [] c1 [c2] (by simp) hdup]
    rfl

/-- C4 witness: two same-timestamp entries, the first (sha `aaa`) survives
alone. -/
theorem c4_witness :
    ([{ sha := "aaa", timestamp := 1577836800, message := "m1", author := "alice" }] :
        List Commit).filter (fun c => decide (c.timestamp = 1577836800)) =
      [{ sha := "aaa", timestamp := 1577836800, message := "m1", author := "alice" }] :=
  c4_dup_timestamp
    ["* ::aaa::Mon, 01 Jan 2020 00:00:00 +0000::m1::alice",
     "* ::bbb::Mon, 01 Jan 2020 00:00:00 +0000::m2::bob"]
    [{ sha := "aaa", timestamp := 1577836800, message := "m1", author := "alice" }]
    none 1577836800
    { sha := "aaa", timestamp := 1577836800, message := "m1", author := "alice" }
    { sha := "bbb", timestamp := 1577836800, message := "m2", author := "bob" }
    rfl rfl

/-- C5 counterexample: the `FailedToBuildError` raised by
`switch_to_revision("deadbeef")` under a failing build carries only the
fixed message, which does not contain the revision identifier
`deadbeef` anywhere, so the error does not reference the revision. -/
theorem c5_counterexample :
    (switch_to_revision bench0 [] worldFail "deadbeef").1 =
      Except.error (VbError.failedToBuild buildFailMsg) ∧
    containsChars "deadbeef".data buildFailMsg.data = false :=
  ⟨rfl, by decide⟩

/-- C5 amended: when the build command exits nonzero, `switch_to_revision`
raises the distinguishable `FailedToBuildError` (with a fixed message that
does not reference the revision), and the workspace remains usable: a
subsequent `switch_to_revision` on the resulting state with a passing build
succeeds. -/
theorem c5_build_failure (r : BenchRepo) (fs : List String)
    (w1 w2 : Invocation → Int) (rev1 rev2 : String)
    (h1 : ¬ w1 (buildInv r) = 0) (h2 : w2 (buildInv r) = 0) :
    (switch_to_revision r fs w1 rev1).1 =
      Except.error (VbError.failedToBuild buildFailMsg) ∧
    (switch_to_revision r ((switch_to_revision r fs w1 rev1).2.2) w2 rev2).1 =
      Except.ok () := by
  constructor
  · rw [switch_fst]
    simp [buildOp, h1]
  · rw [switch_fst]
    simp [buildOp, h2]

/-- C5 witness: the failing-then-passing scenario at a concrete workspace. -/
theorem c5_witness :
    (switch_to_revision bench0 [] worldFail "r1").1 =
      Except.error (VbError.failedToBuild buildFailMsg) ∧
    (switch_to_revision bench0 ((switch_to_revision bench0 [] worldFail "r1").2.2)
        worldOK "r2").1 = Except.ok () :=
  c5_build_failure bench0 [] worldFail worldOK "r1" "r2" (by decide) (by decide)

/-- C6: when the second of two parsed branches stops at a boundary sha seen
during the first branch's parse, that sha's membership list contains both
branch names, and every commit of the second branch's own parsed list
(the commits encountered above, i.e. strictly newer than, the boundary)
belongs to the second branch only. -/
theorem c6_boundary_membership (b1 b2 : String) (L1 L2 : List String)
    (table : List Commit) (sb : List (String × List String))
    (e1 e2 : List Commit) (s : String)
    (hn2 : (realShas L2).Nodup)
    (h : parse_commit_log [(b1, L1), (b2, L2)] = Except.ok (table, sb))
    (h1 : parse_commit_log_branch L1 [] = Except.ok (e1, none))
    (h2 : parse_commit_log_branch L2 (e1.map (fun c => c.sha)) = Except.ok (e2, some s)) :
    b1 ∈ shaBranchesGet sb s ∧ b2 ∈ shaBranchesGet sb s ∧
      ∀ c ∈ e2, shaBranchesGet sb c.sha = [b2] := by
  have hsb : sb = ((s :: e2.map (fun c => c.sha)).foldl
      (fun m sha => recordBranch m sha b2)
      ((e1.map (fun c => c.sha)).foldl (fun m sha => recordBranch m sha b1) [])) := by
    unfold parse_commit_log at h
    simp only [logLoop, h1, h2, List.nil_append, List.singleton_append] at h
    simp only [Except.ok.injEq, Prod.mk.injEq] at h
    exact h.2.symm
  have hget : ∀ k, shaBranchesGet sb k =
      List.replicate ((e1.map (fun c => c.sha)).count k) b1 ++
        List.replicate ((s :: e2.map (fun c => c.sha)).count k) b2 := by
    intro k
    rw [hsb, foldl_record_get, foldl_record_get]
    rfl
  have hs1 : s ∈ e1.map (fun c => c.sha) := branch_base_mem L2 _ e2 s h2
  have hspec2 := branch_entry_spec L2 (e1.map (fun c => c.sha)) e2 (some s) h2
  refine ⟨?_, ?_, ?_⟩
  · rw [hget s]
    refine List.mem_append.mpr (Or.inl ?_)
    exact List.mem_replicate.mpr
      ⟨Nat.pos_iff_ne_zero.mp (List.count_pos_iff.mpr hs1), rfl⟩
  · rw [hget s]
    refine List.mem_append.mpr (Or.inr ?_)
    refine List.mem_replicate.mpr ⟨?_, rfl⟩
    rw [List.count_cons]
    simp
  · intro c hc
    have hnot1 : ¬ c.sha ∈ e1.map (fun x => x.sha) := hspec2.2 c hc
    have hne : (s == c.sha) = false :=
      beq_eq_false_iff_ne.mpr (fun he => hnot1 (he ▸ hs1))
    have hnd2 : (e2.map (fun x => x.sha)).Nodup := hspec2.1 hn2
    have hmem2 : c.sha ∈ e2.map (fun x => x.sha) := List.mem_map_of_mem _ hc
    rw [hget c.sha, List.count_eq_zero.mpr hnot1, List.count_cons, hne,
      List.count_eq_one_of_mem hnd2 hmem2]
    rfl

/-- C6 witness: branches `one` and `two` sharing the ancestor `ccc`. -/
theorem c6_witness :
    "one" ∈ shaBranchesGet
      [("aaa", ["one"]), ("ccc", ["one", "two"]), ("ddd", ["two"])] "ccc" ∧
    "two" ∈ shaBranchesGet
      [("aaa", ["one"]), ("ccc", ["one", "two"]), ("ddd", ["two"])] "ccc" ∧
    ∀ c ∈ ([{ sha := "ddd", timestamp := 1578096000, message := "m4", author := "dave" }] :
        List Commit),
      shaBranchesGet [("aaa", ["one"]), ("ccc", ["one", "two"]), ("ddd", ["two"])] c.sha =
        ["two"] :=
  c6_boundary_membership "one" "two"
    ["* ::ccc::Fri, 03 Jan 2020 00:00:00 +0000::m3::carol",
     "* ::aaa::Wed, 01 Jan 2020 00:00:00 +0000::m1::alice"]
    ["* ::ddd::Sat, 04 Jan 2020 00:00:00 +0000::m4::dave",
     "* ::ccc::Fri, 03 Jan 2020 00:00:00 +0000::m3::carol"]
    [{ sha := "aaa", timestamp := 1577836800, message := "m1", author := "alice" },
     { sha := "ccc", timestamp := 1578009600, message := "m3", author := "carol" },
     { sha := "ddd", timestamp := 1578096000, message := "m4", author := "dave" }]
    [("aaa", ["one"]), ("ccc", ["one", "two"]), ("ddd", ["two"])]
    [{ sha := "aaa", timestamp := 1577836800, message := "m1", author := "alice" },
     { sha := "ccc", timestamp := 1578009600, message := "m3", author := "carol" }]
    [{ sha := "ddd", timestamp := 1578096000, message := "m4", author := "dave" }]
    "ccc" (by decide) rfl rfl rfl

/-- C7 counterexample: the line `3\tx\tfoo.py` does not parse as three
tab-separated fields with integer first and second fields, yet it is not
ignored: `insertions[path] = int(i)` has already run when `int(d)` fails,
so the line contributes an insertions entry. -/
theorem c7_counterexample :
    diff_numstat "3\tx\tfoo.py" = ([("foo.py", (3 : Int))], []) ∧
    ¬ diff_numstat "3\tx\tfoo.py" =
      (([], []) : List (String × Int) × List (String × Int)) :=
  ⟨rfl, by decide⟩

/-- C7 amended: the scenario holds (`3\t1\tfoo.py` then the malformed
`\t\tbar.py` yield insertions `{foo.py: 3}` and deletions `{foo.py: 1}`),
and in general a line without exactly three tab-separated fields, or whose
first field is not an integer, contributes nothing and never raises; a line
whose first field is an integer but whose second is not records only the
insertion (the deletion side is skipped). -/
theorem c7_diff_parsing :
    diff_numstat "3\t1\tfoo.py\n\t\tbar.py\n" =
      ([("foo.py", (3 : Int))], [("foo.py", (1 : Int))]) ∧
    (∀ (ins del : List (String × Int)) (line : String),
      ¬ (pySplitChar line '\t').length = 3 → diffLine ins del line = (ins, del)) ∧
    (∀ (ins del : List (String × Int)) (line i d p : String),
      pySplitChar line '\t' = [i, d, p] → pyInt? i = none →
      diffLine ins del line = (ins, del)) ∧
    (∀ (ins del : List (String × Int)) (line i d p : String) (iv : Int),
      pySplitChar line '\t' = [i, d, p] → pyInt? i = some iv → pyInt? d = none →
      diffLine ins del line = (alistSet ins p iv, del)) := by
  refine ⟨rfl, ?_, ?_, ?_⟩
  · intro ins del line hlen
    unfold diffLine
    split
    next i d p heq => exact absurd (by rw [heq]; rfl) hlen
    next => rfl
  · intro ins del line i d p hsp hi
    unfold diffLine
    split
    next i2 d2 p2 heq =>
      rw [hsp] at heq
      simp only [List.cons.injEq, and_true] at heq
      obtain ⟨hi2, hd2, hp2⟩ := heq
      subst hi2
      rw [hi]
    next hno =>
      rfl
  · intro ins del line i d p iv hsp hi hd
    unfold diffLine
    split
    next i2 d2 p2 heq =>
      rw [hsp] at heq
      simp only [List.cons.injEq, and_true] at heq
      obtain ⟨hi2, hd2, hp2⟩ := heq
      subst hi2
      subst hd2
      subst hp2
      rw [hi, hd]
    next hno =>
      exact absurd (hno i d p hsp) (by simp)

/-- C7 witness: concrete malformed lines exercising all three general
clauses of the amended claim. -/
theorem c7_witness :
    diffLine [] [] "a\tb" = ([], []) ∧
    diffLine [] [] "z\t1\tq.py" = ([], []) ∧
    diffLine [] [] "4\ty\tq.py" = (alistSet [] "q.py" 4, []) :=
  ⟨c7_diff_parsing.2.1 [] [] "a\tb" (by decide),
   c7_diff_parsing.2.2.1 [] [] "z\t1\tq.py" "z" "1" "q.py" rfl rfl,
   c7_diff_parsing.2.2.2 [] [] "4\ty\tq.py" "4" "y" "q.py" 4 rfl rfl rfl⟩

/-- C8: when the clone target directory already exists, `_clone` with
removal not requested raises the `RuntimeError` immediately and records no
effect at all (in particular the clone command is never invoked), while
with removal requested it removes the directory and only then invokes the
clone command. -/
theorem c8_clone_guard (fs : List String) (source target : String) (h : target ∈ fs) :
    ((cloneOp fs source target false).1 =
        Except.error (VbError.runtimeError (cloneMsg target)) ∧
      (cloneOp fs source target false).2.1 = []) ∧
    (cloneOp fs source target true).2.1 =
      [Action.rmtree target, Action.run (cloneInv source target)] := by
  simp [cloneOp, h]

/-- C8 witness: a concrete pre-existing target directory. -/
theorem c8_witness :
    ((cloneOp ["bench"] "srcrepo" "bench" false).1 =
        Except.error (VbError.runtimeError (cloneMsg "bench")) ∧
      (cloneOp ["bench"] "srcrepo" "bench" false).2.1 = []) ∧
    (cloneOp ["bench"] "srcrepo" "bench" true).2.1 =
      [Action.rmtree "bench", Action.run (cloneInv "srcrepo" "bench")] :=
  c8_clone_guard ["bench"] "srcrepo" "bench" (by decide)

/-- C9: the executed shell command of each multi-line block is obtained by
splitting on newlines, dropping empty or whitespace-only lines and joining
with `;` (the source's `len(x.strip()) > 0` filter provably equals the
spec's description), and `_build`, `_prep` and `_clean` each issue exactly
one shell invocation of the joined block with the permanent target
directory as working directory. -/
theorem c9_command_blocks :
    (∀ block : String, joinCmds block = specJoinCmds block) ∧
    (∀ (r : BenchRepo) (w : Invocation → Int),
      (buildOp r w).2 =
        [Action.run { args := [joinCmds r.build_cmds], shell := true,
                      cwd := some r.target_dir }]) ∧
    (∀ r : BenchRepo,
      prepOp r =
        [Action.run { args := [joinCmds r.prep_cmd], shell := true,
                      cwd := some r.target_dir }]) ∧
    (∀ (r : BenchRepo) (c : String), r.clean_cmd = some c → ¬ c = "" →
      cleanOp r =
        [Action.run { args := [joinCmds c], shell := true,
                      cwd := some r.target_dir }]) := by
  refine ⟨?_, fun r w => rfl, fun r => rfl, ?_⟩
  · intro block
    unfold joinCmds specJoinCmds
    congr 1
    apply List.filter_congr
    intro x _
    exact stripLen_bool x
  · intro r c hc hne
    unfold cleanOp
    rw [hc]
    simp only [if_neg hne]

/-- C9 witness: a block with a whitespace-only middle line, and a workspace
with a nonempty clean command. -/
theorem c9_witness :
    joinCmds "make clean\n  \nmake build" = specJoinCmds "make clean\n  \nmake build" ∧
    cleanOp { source_url := "srcrepo", target_dir := "bench", build_cmds := "make",
              prep_cmd := "true", clean_cmd := some "rm -rf build", dependencies := [],
              always_clean := false } =
      [Action.run { args := [joinCmds "rm -rf build"], shell := true,
                    cwd := some "bench" }] :=
  ⟨c9_command_blocks.1 "make clean\n  \nmake build",
   c9_command_blocks.2.2.2
     { source_url := "srcrepo", target_dir := "bench", build_cmds := "make",
       prep_cmd := "true", clean_cmd := some "rm -rf build", dependencies := [],
       always_clean := false } "rm -rf build" rfl (by decide)⟩

/-- C10: in the branch-parse loop the duplicate-timestamp check precedes
boundary detection.  First, a well-formed entry whose timestamp is already
collected is skipped entirely — even when its sha is known — and parsing
continues on the older entries with unchanged state, recording no boundary
from it.  Second, whenever a boundary sha is recorded, it is a known sha
whose triggering entry's timestamp had not yet been seen at that point. -/
theorem c10_skip_precedence :
    (∀ (known : List String) (line : String) (rest : List String)
        (acc : List Commit) (c : Commit),
      lineFields line = Except.ok (some c) →
      c.timestamp ∈ acc.map (fun x => x.timestamp) →
      parseLoop known (line :: rest) acc = parseLoop known rest acc) ∧
    (∀ (known lines : List String) (acc acc2 : List Commit) (s : String),
      parseLoop known lines acc = Except.ok (acc2, some s) →
      s ∈ known ∧ ∃ l ∈ lines, ∃ c, lineFields l = Except.ok (some c) ∧ c.sha = s ∧
        ¬ c.timestamp ∈ acc2.map (fun x => x.timestamp)) := by
  constructor
  · intro known line rest acc c hl hts
    simp only [parseLoop, hl]
    rw [if_pos hts]
  · intro known lines acc acc2 s h
    exact parseLoop_base_spec known lines acc acc2 s h

/-- C10 witness: a known sha with a duplicate timestamp is skipped (first
clause), and a recorded boundary satisfies the second clause. -/
theorem c10_witness :
    parseLoop ["aaa"] ["* ::aaa::Mon, 01 Jan 2020 00:00:00 +0000::m::al"]
        [{ sha := "bbb", timestamp := 1577836800, message := "m0", author := "bo" }] =
      parseLoop ["aaa"] []
        [{ sha := "bbb", timestamp := 1577836800, message := "m0", author := "bo" }] ∧
    ("ccc" ∈ ["ccc"] ∧
      ∃ l ∈ ["* ::ccc::Tue, 02 Jan 2020 00:00:00 +0000::m::al"], ∃ c,
        lineFields l = Except.ok (some c) ∧ c.sha = "ccc" ∧
        ¬ c.timestamp ∈ ([] : List Commit).map (fun x => x.timestamp)) :=
  ⟨c10_skip_precedence.1 ["aaa"] "* ::aaa::Mon, 01 Jan 2020 00:00:00 +0000::m::al" []
     [{ sha := "bbb", timestamp := 1577836800, message := "m0", author := "bo" }]
     { sha := "aaa", timestamp := 1577836800, message := "m", author := "al" }
     rfl (by decide),
   c10_skip_precedence.2 ["ccc"] ["* ::ccc::Tue, 02 Jan 2020 00:00:00 +0000::m::al"]
     [] [] "ccc" rfl⟩

end Vbench
